import Mathlib

/-!
Shallow embedding of the transactional outbox and relay subsystem of the
beep-industries/message repository, together with proofs of the specified
properties.

The embedding covers:
- the Outbox Writer (src/core/src/infrastructure/outbox/writer.rs,
  function write_outbox_event): a single INSERT ... ON CONFLICT (id) DO NOTHING
  issued on a caller-supplied transactional executor;
- the Relay Service (src/core/src/infrastructure/rabbitmq/relay.rs,
  functions process_pending_messages and process_single_message): scan the
  outbox collection for READY documents, publish each, and advance its status;
- the Broker Publisher (src/core/src/infrastructure/rabbitmq/publisher.rs,
  function publish): publish with delivery confirmation over an optional
  channel.

Timestamps are modelled as naturals, UUIDs as their 16-byte sequences, and
the external broker as a structure of outcome functions (declare outcome and
publish-with-confirmation outcome per call).
-/

namespace OutboxSpec

/-- Error variants of CoreError (src/core/src/domain/common/mod.rs) used by
the outbox subsystem. -/
inductive CoreError where
  | DatabaseError (msg : String)
  | SerializationError (msg : String)
  | RabbitMqError (msg : String)
deriving DecidableEq, Repr

/-- A row of the Postgres table outbox_messages, as written by
write_outbox_event (src/core/src/infrastructure/outbox/writer.rs, lines
69-82): columns id, exchange_name, routing_key, payload, status, failed_at,
created_at. -/
structure OutboxRow where
  id : Nat
  exchange_name : String
  routing_key : String
  payload : String
  status : String
  failed_at : Option Nat
  created_at : Nat
deriving DecidableEq, Repr

/-- OutboxEventRecord (src/core/src/infrastructure/outbox/event.rs): an id,
a router supplying exchange name and routing key, and an opaque payload.
Serialization of an OutboxEventRecord delegates to its payload
(event.rs lines 99-108) and may fail, so the embedding carries the outcome
of serde_json::to_value on the payload: some serialized text, or none. -/
structure OutboxEventRecord where
  id : Nat
  exchange_name : String
  routing_key : String
  serialized : Option String
deriving DecidableEq, Repr

/-- Check whether some row with the given id is present (the unique index
behind ON CONFLICT (id)). -/
def hasId (rows : List OutboxRow) (i : Nat) : Bool :=
  rows.any (fun r => r.id = i)

/-- Insert semantics of INSERT ... ON CONFLICT (id) DO NOTHING: append the
row unless a row with the same id is already present. -/
def insertIfAbsent (rows : List OutboxRow) (r : OutboxRow) : List OutboxRow :=
  if hasId rows r.id then rows else rows ++ [r]

/-- The caller-supplied transactional executor: the list of outbox inserts
issued so far inside the open transaction. -/
structure PgTransaction where
  ops : List OutboxRow
deriving DecidableEq, Repr

/-- write_outbox_event (src/core/src/infrastructure/outbox/writer.rs lines
51-88): serialize the event (failure surfaces as SerializationError and
nothing is issued), then issue exactly one insert of
(id, exchange_name, routing_key, payload, READY, null, now) on the supplied
executor, and return the event id. -/
def write_outbox_event (tx : PgTransaction) (event : OutboxEventRecord) (now : Nat) :
    Except CoreError (Nat × PgTransaction) :=
  match event.serialized with
  | none => Except.error (CoreError.SerializationError "serde_json to_value failed")
  | some payload =>
      Except.ok (event.id,
        PgTransaction.mk (tx.ops ++
          [OutboxRow.mk event.id event.exchange_name event.routing_key payload
            "READY" none now]))

/-- Committing the transaction applies its pending inserts to the store, in
order, each with ON CONFLICT (id) DO NOTHING semantics. -/
def commitTx (store : List OutboxRow) (tx : PgTransaction) : List OutboxRow :=
  tx.ops.foldl insertIfAbsent store

/-- Rolling the transaction back discards every pending insert. -/
def rollbackTx (store : List OutboxRow) (_tx : PgTransaction) : List OutboxRow :=
  store

/-- Look a row up by id. -/
def findRow (rows : List OutboxRow) (i : Nat) : Option OutboxRow :=
  rows.find? (fun r => r.id = i)

/-- Number of rows carrying the given id. -/
def countId (rows : List OutboxRow) (i : Nat) : Nat :=
  (rows.filter (fun r => r.id = i)).length

/-! The MongoDB side: BSON values, outbox documents, and the relay
(src/core/src/infrastructure/rabbitmq/relay.rs). -/

/-- The BSON values the relay distinguishes: Binary (payload and binary
UUIDs), String, DateTime, Int32, and a catch-all Null for other types. -/
inductive Bson where
  | binary (bytes : List Nat)
  | string (s : String)
  | dateTime (t : Nat)
  | int32 (n : Int)
  | null
deriving DecidableEq, Repr

/-- as_str on a BSON value: some only on String. -/
def Bson.asStr : Bson → Option String
  | Bson.string s => some s
  | _ => none

/-- A MongoDB document: ordered field list with first-occurrence lookup. -/
def MongoDoc : Type := List (String × Bson)

instance : DecidableEq MongoDoc := by
  unfold MongoDoc
  infer_instance

/-- Document field lookup (Document::get). -/
def docGet (d : MongoDoc) (k : String) : Option Bson :=
  (d.find? (fun p => p.1 = k)).map Prod.snd

/-- Set one field of a document, as a $set update does: overwrite the first
occurrence, or append the field if absent. -/
def docSet (d : MongoDoc) (k : String) (v : Bson) : MongoDoc :=
  match d with
  | [] => [(k, v)]
  | p :: rest => if p.1 = k then (k, v) :: rest else p :: docSet rest k v

/-- Hex digit decoding, for UUID string parsing. -/
def hexDigit (c : Char) : Option Nat :=
  if ('0' ≤ c ∧ c ≤ '9') then some (c.toNat - 48)
  else if ('a' ≤ c ∧ c ≤ 'f') then some (c.toNat - 97 + 10)
  else if ('A' ≤ c ∧ c ≤ 'F') then some (c.toNat - 65 + 10)
  else none

/-- Decode a list of hex digits into bytes (two digits per byte). -/
def hexBytes : List Char → Option (List Nat)
  | [] => some []
  | [_] => none
  | c1 :: c2 :: rest =>
      match hexDigit c1, hexDigit c2, hexBytes rest with
      | some h, some l, some bs => some ((16 * h + l) :: bs)
      | _, _, _ => none

/-- Model of uuid::Uuid::parse_str restricted to the two common encodings:
the hyphenated form of 36 characters with hyphens at positions 8, 13, 18
and 23, and the simple form of 32 hex digits. Returns the 16 bytes. -/
def uuidParse (s : String) : Option (List Nat) :=
  let cs := s.toList
  if cs.length = 36 then
    match cs.get? 8, cs.get? 13, cs.get? 18, cs.get? 23 with
    | some h1, some h2, some h3, some h4 =>
        if h1 = '-' ∧ h2 = '-' ∧ h3 = '-' ∧ h4 = '-' then
          hexBytes (cs.filter (fun c => c ≠ '-'))
        else none
    | _, _, _, _ => none
  else if cs.length = 32 then hexBytes cs
  else none

/-- Conversion of the _id BSON value to a UUID (relay.rs lines 91-105):
Binary goes through Uuid::from_slice (succeeds exactly on 16 bytes), String
through Uuid::parse_str, and every other type is rejected. -/
def bsonToUuid : Bson → Except CoreError (List Nat)
  | Bson.binary bytes =>
      if bytes.length = 16 then Except.ok bytes
      else Except.error (CoreError.DatabaseError "Invalid UUID in _id")
  | Bson.string s =>
      match uuidParse s with
      | some bytes => Except.ok bytes
      | none => Except.error (CoreError.DatabaseError "Invalid UUID string in _id")
  | _ => Except.error (CoreError.DatabaseError "Unexpected _id type")

/-- Field extraction phase of process_single_message (relay.rs lines
86-123): _id (present and a valid UUID), exchange_name and routing_key
(present and strings, via as_str), payload (present). Returns the _id BSON
value (used verbatim in later update filters), the exchange name, the
routing key and the payload value. -/
def extractParts (d : MongoDoc) :
    Except CoreError (Bson × String × String × Bson) :=
  match docGet d "_id" with
  | none => Except.error (CoreError.DatabaseError "Missing _id in outbox document")
  | some idB =>
      match bsonToUuid idB with
      | Except.error e => Except.error e
      | Except.ok _ =>
          match (docGet d "exchange_name").bind Bson.asStr with
          | none => Except.error (CoreError.DatabaseError "Missing exchange_name in outbox document")
          | some ex =>
              match (docGet d "routing_key").bind Bson.asStr with
              | none => Except.error (CoreError.DatabaseError "Missing routing_key in outbox document")
              | some rk =>
                  match docGet d "payload" with
                  | none => Except.error (CoreError.DatabaseError "Missing payload in outbox document")
                  | some p => Except.ok (idB, ex, rk, p)

/-- The external broker, as outcome functions: whether exchange_declare
succeeds for an exchange, and whether publish-with-confirmation succeeds
for a given exchange, routing key and payload. -/
structure BrokerModel where
  declareOk : String → Bool
  publishOk : String → String → List Nat → Bool

/-- update_one on filter by _id: rewrite the first document whose _id field
equals the given BSON value; every other document is untouched. -/
def updateFirst (docs : List MongoDoc) (idB : Bson) (f : MongoDoc → MongoDoc) :
    List MongoDoc :=
  match docs with
  | [] => []
  | d :: rest =>
      if docGet d "_id" = some idB then f d :: rest
      else d :: updateFirst rest idB f

/-- The $set document of the success branch (relay.rs lines 156-160): only
status is set to SENT. -/
def markSent (d : MongoDoc) : MongoDoc :=
  docSet d "status" (Bson.string "SENT")

/-- The $set document of the failure branches (relay.rs lines 130-135 and
173-178): status is set to FAILED and failed_at to the current time. -/
def markFailed (now : Nat) (d : MongoDoc) : MongoDoc :=
  docSet (docSet d "status" (Bson.string "FAILED")) "failed_at" (Bson.dateTime now)

/-- Outcome of processing one document: the returned result, the collection
afterwards, the exchange declarations attempted, and the publishes
attempted (exchange, routing key, payload bytes). -/
structure StepOut where
  result : Except CoreError Unit
  docs : List MongoDoc
  declares : List String
  publishes : List (String × String × List Nat)

/-- process_single_message (relay.rs lines 80-192). Extract _id, exchange
name, routing key and payload; a non-Binary payload is marked FAILED (with
failed_at) and reported as a SerializationError before any broker
interaction; otherwise the exchange declaration is attempted (its failure
is only logged), then the publish: on success the document is marked SENT,
on failure it is marked FAILED with failed_at, and either way the function
returns ok. -/
def process_single_message (broker : BrokerModel) (now : Nat)
    (docs : List MongoDoc) (d : MongoDoc) : StepOut :=
  match extractParts d with
  | Except.error e => StepOut.mk (Except.error e) docs [] []
  | Except.ok (idB, ex, rk, p) =>
      match p with
      | Bson.binary bytes =>
          if broker.publishOk ex rk bytes then
            StepOut.mk (Except.ok ()) (updateFirst docs idB markSent) [ex] [(ex, rk, bytes)]
          else
            StepOut.mk (Except.ok ()) (updateFirst docs idB (markFailed now)) [ex]
              [(ex, rk, bytes)]
      | _ =>
          StepOut.mk
            (Except.error (CoreError.SerializationError
              "Expected binary payload in outbox document"))
            (updateFirst docs idB (markFailed now)) [] []

/-- Outcome of one batch: the collection afterwards, the declarations and
publishes attempted, and the per-document results. -/
structure BatchOut where
  docs : List MongoDoc
  declares : List String
  publishes : List (String × String × List Nat)
  results : List (Except CoreError Unit)

/-- The cursor loop of process_pending_messages (relay.rs lines 64-74):
process the fetched documents in order; a per-document error is logged and
the iteration continues with the next document. -/
def relayBatch (broker : BrokerModel) (now : Nat)
    (docs : List MongoDoc) : List MongoDoc → BatchOut
  | [] => BatchOut.mk docs [] [] []
  | d :: rest =>
      let s := process_single_message broker now docs d
      let r := relayBatch broker now s.docs rest
      BatchOut.mk r.docs (s.declares ++ r.declares) (s.publishes ++ r.publishes)
        (s.result :: r.results)

/-- Filter of the relay query (relay.rs line 50): status = READY. -/
def isReady (d : MongoDoc) : Bool :=
  docGet d "status" = some (Bson.string "READY")

/-- Sort key of the relay query: the created_at field (a BSON DateTime on
documents produced by the writer). -/
def createdKey (d : MongoDoc) : Nat :=
  match docGet d "created_at" with
  | some (Bson.dateTime t) => t
  | _ => 0

/-- Comparison used by the sort option of the relay query: created_at
ascending. -/
def createdLe (a b : MongoDoc) : Prop :=
  createdKey a ≤ createdKey b

instance : DecidableRel createdLe :=
  fun a b => Nat.decLe (createdKey a) (createdKey b)

instance : IsTotal MongoDoc createdLe :=
  ⟨fun a b => Nat.le_total (createdKey a) (createdKey b)⟩

instance : IsTrans MongoDoc createdLe :=
  ⟨fun _ _ _ => Nat.le_trans⟩

/-- The query of process_pending_messages (relay.rs lines 50-62): the
documents with status READY, sorted by created_at ascending (a stable
structural sort stands in for the server-side sort), limited to 100. -/
def scanReady (docs : List MongoDoc) : List MongoDoc :=
  ((List.insertionSort createdLe (docs.filter isReady)).take 100)

/-- process_pending_messages (relay.rs lines 46-77): fetch the batch with
the READY query, then run the cursor loop over it. -/
def process_pending_messages (broker : BrokerModel) (now : Nat)
    (docs : List MongoDoc) : BatchOut :=
  relayBatch broker now docs (scanReady docs)

/-! The Broker Publisher (src/core/src/infrastructure/rabbitmq/publisher.rs). -/

/-- A lapin channel, modelled by the outcomes of its two awaited steps in
publish: whether basic_publish is accepted by the channel, and whether the
subsequent delivery confirmation succeeds, per (exchange, routing key,
payload). -/
structure LapinChannel where
  acceptOk : String → String → List Nat → Bool
  confirmOk : String → String → List Nat → Bool

/-- RabbitMqPublisher state (publisher.rs lines 13-18): an optional
connection (its liveness) and an optional channel. -/
structure RabbitMqPublisher where
  connected : Bool
  channel : Option LapinChannel

/-- publish (publisher.rs lines 83-128): error when no channel has been
established; otherwise basic_publish, whose rejection is an error, then the
await of the broker confirmation, whose failure is an error; only after
both succeed does publish return ok. -/
def publish (p : RabbitMqPublisher) (exchange_name routing_key : String)
    (payload : List Nat) : Except CoreError Unit :=
  match p.channel with
  | none =>
      Except.error (CoreError.RabbitMqError "Channel not initialized. Call connect() first.")
  | some ch =>
      if ch.acceptOk exchange_name routing_key payload then
        if ch.confirmOk exchange_name routing_key payload then Except.ok ()
        else Except.error (CoreError.RabbitMqError "Failed to confirm publish")
      else Except.error (CoreError.RabbitMqError "Failed to publish message")

/-! Concrete documents and brokers used in scenario instances. -/

/-- A well-formed outbox document as the writer produces it, with id byte i,
payload byte i and created_at i. -/
def sampleDoc (i : Nat) : MongoDoc :=
  [("_id", Bson.binary (i :: List.replicate 15 0)),
   ("exchange_name", Bson.string "notifications"),
   ("routing_key", Bson.string "message.created"),
   ("payload", Bson.binary [i]),
   ("status", Bson.string "READY"),
   ("created_at", Bson.dateTime i),
   ("failed_at", Bson.null)]

/-- n well-formed READY documents with created_at 0, 1, ..., n-1. -/
def manyDocs (n : Nat) : List MongoDoc :=
  (List.range n).map sampleDoc

/-- A healthy broker: every declaration and every publish succeeds. -/
def alwaysOk : BrokerModel :=
  BrokerModel.mk (fun _ => true) (fun _ _ _ => true)

/-- A broker whose exchange declarations fail while publishes succeed. -/
def declineDeclare : BrokerModel :=
  BrokerModel.mk (fun _ => false) (fun _ _ _ => true)

/-- A broker whose publishes all fail. -/
def neverPublish : BrokerModel :=
  BrokerModel.mk (fun _ => true) (fun _ _ _ => false)

/-- A READY document whose exchange_name field is missing, so that field
extraction fails before any status update. -/
def noExchangeDoc : MongoDoc :=
  [("_id", Bson.binary (List.replicate 16 1)),
   ("routing_key", Bson.string "message.created"),
   ("payload", Bson.binary [2]),
   ("status", Bson.string "READY"),
   ("created_at", Bson.dateTime 0),
   ("failed_at", Bson.null)]

/-- A READY document whose payload is a string instead of BSON Binary. -/
def legacyPayloadDoc : MongoDoc :=
  [("_id", Bson.binary (List.replicate 16 3)),
   ("exchange_name", Bson.string "notifications"),
   ("routing_key", Bson.string "message.created"),
   ("payload", Bson.string "legacy json"),
   ("status", Bson.string "READY"),
   ("created_at", Bson.dateTime 0),
   ("failed_at", Bson.null)]

/-- A document that has already been observed with status SENT. -/
def sentDoc : MongoDoc :=
  [("_id", Bson.binary (List.replicate 16 9)),
   ("exchange_name", Bson.string "notifications"),
   ("routing_key", Bson.string "message.created"),
   ("payload", Bson.binary [9]),
   ("status", Bson.string "SENT"),
   ("created_at", Bson.dateTime 0),
   ("failed_at", Bson.null)]

/-- Look a document up by the BSON value of its _id field (the filter used
by the relay updates). -/
def findById (docs : List MongoDoc) (idB : Bson) : Option MongoDoc :=
  docs.find? (fun d => docGet d "_id" = some idB)

/-- Two documents carry distinct _id values (the uniqueness MongoDB
enforces on _id within one collection). -/
def IdNe (a b : MongoDoc) : Prop :=
  docGet a "_id" ≠ docGet b "_id"

theorem hasId_append (rows more : List OutboxRow) (i : Nat) :
    hasId (rows ++ more) i = (hasId rows i || hasId more i) := by
  simp [hasId, List.any_append]

theorem findRow_eq_none_of_hasId_false (rows : List OutboxRow) (i : Nat)
    (h : hasId rows i = false) : findRow rows i = none := by
  induction rows with
  | nil => rfl
  | cons r rest ih =>
      simp only [hasId, List.any_cons, Bool.or_eq_false_iff] at h
      simp only [findRow, List.find?_cons]
      rw [h.1]
      exact ih h.2

theorem findRow_append_self (rows : List OutboxRow) (r : OutboxRow)
    (h : hasId rows r.id = false) : findRow (rows ++ [r]) r.id = some r := by
  induction rows with
  | nil => simp [findRow]
  | cons x rest ih =>
      simp only [hasId, List.any_cons, Bool.or_eq_false_iff] at h
      simp only [findRow, List.cons_append, List.find?_cons]
      rw [h.1]
      exact ih h.2

theorem hasId_commitTx_false (ops : List OutboxRow) (store : List OutboxRow) (i : Nat)
    (hstore : hasId store i = false) (hops : hasId ops i = false) :
    hasId (commitTx store (PgTransaction.mk ops)) i = false := by
  induction ops generalizing store with
  | nil => exact hstore
  | cons r rest ih =>
      simp only [hasId, List.any_cons, Bool.or_eq_false_iff] at hops
      have hstep : hasId (insertIfAbsent store r) i = false := by
        unfold insertIfAbsent
        by_cases hc : hasId store r.id
        · simpa [hc] using hstore
        · rw [if_neg (by simp [hc]), hasId_append, hstore, Bool.false_or]
          simpa [hasId] using hops.1
      exact ih (insertIfAbsent store r) hstep hops.2

theorem countId_eq_zero_of_hasId_false (rows : List OutboxRow) (i : Nat)
    (h : hasId rows i = false) : countId rows i = 0 := by
  induction rows with
  | nil => rfl
  | cons r rest ih =>
      simp only [hasId, List.any_cons, Bool.or_eq_false_iff] at h
      simp only [countId, List.filter_cons]
      rw [h.1]
      exact ih h.2

/-- C1: atomicity of the Outbox Writer. When the payload serializes, the
writer issues exactly one insert (the READY row for the event id) on the
caller-supplied executor and nothing else; if that transaction commits, a
row with the event id exists with status READY; if it rolls back, no row
with that id exists. -/
theorem write_outbox_event_atomicity
    (store : List OutboxRow) (tx : PgTransaction) (event : OutboxEventRecord)
    (now : Nat) (payload : String)
    (hser : event.serialized = some payload)
    (hstore : hasId store event.id = false)
    (htx : hasId tx.ops event.id = false) :
    ∃ tx2 : PgTransaction,
      write_outbox_event tx event now = Except.ok (event.id, tx2) ∧
      tx2.ops = tx.ops ++
        [OutboxRow.mk event.id event.exchange_name event.routing_key payload
          "READY" none now] ∧
      (findRow (commitTx store tx2) event.id).map OutboxRow.status = some "READY" ∧
      findRow (rollbackTx store tx2) event.id = none := by
  refine ⟨PgTransaction.mk (tx.ops ++
      [OutboxRow.mk event.id event.exchange_name event.routing_key payload
        "READY" none now]), ?_, rfl, ?_, ?_⟩
  · simp [write_outbox_event, hser]
  · have hmid : hasId (commitTx store (PgTransaction.mk tx.ops)) event.id = false :=
      hasId_commitTx_false tx.ops store event.id hstore htx
    have hsplit : commitTx store (PgTransaction.mk (tx.ops ++
        [OutboxRow.mk event.id event.exchange_name event.routing_key payload
          "READY" none now])) =
        insertIfAbsent (commitTx store (PgTransaction.mk tx.ops))
          (OutboxRow.mk event.id event.exchange_name event.routing_key payload
            "READY" none now) := by
      simp [commitTx, List.foldl_append]
    rw [hsplit]
    unfold insertIfAbsent
    rw [hmid]
    simp only [if_false, Bool.false_eq_true]
    rw [findRow_append_self _ _ hmid]
    rfl
  · exact findRow_eq_none_of_hasId_false store event.id hstore

/-- Concrete instance of C1. -/
theorem write_outbox_event_atomicity_witness :
    ∃ tx2 : PgTransaction,
      write_outbox_event (PgTransaction.mk [])
        (OutboxEventRecord.mk 7 "notifications" "message.created" (some "p")) 5 =
        Except.ok (7, tx2) ∧
      tx2.ops = [] ++ [OutboxRow.mk 7 "notifications" "message.created" "p" "READY" none 5] ∧
      (findRow (commitTx [] tx2) 7).map OutboxRow.status = some "READY" ∧
      findRow (rollbackTx [] tx2) 7 = none :=
  write_outbox_event_atomicity [] (PgTransaction.mk [])
    (OutboxEventRecord.mk 7 "notifications" "message.created" (some "p")) 5 "p"
    rfl rfl rfl

/-- C3: idempotency on id. Writing two events that carry the same id, each
in its own committed transaction, leaves storage with exactly one row for
that id, and the second commit changes nothing at all (in particular
neither the stored payload nor the stored status). -/
theorem write_outbox_event_idempotent
    (store : List OutboxRow) (e1 e2 : OutboxEventRecord) (now1 now2 : Nat)
    (p1 p2 : String)
    (hid : e2.id = e1.id)
    (h1 : e1.serialized = some p1) (h2 : e2.serialized = some p2)
    (hstore : hasId store e1.id = false) :
    ∃ tx1 tx2 : PgTransaction,
      write_outbox_event (PgTransaction.mk []) e1 now1 = Except.ok (e1.id, tx1) ∧
      write_outbox_event (PgTransaction.mk []) e2 now2 = Except.ok (e2.id, tx2) ∧
      commitTx (commitTx store tx1) tx2 = commitTx store tx1 ∧
      countId (commitTx (commitTx store tx1) tx2) e1.id = 1 ∧
      findRow (commitTx (commitTx store tx1) tx2) e1.id =
        some (OutboxRow.mk e1.id e1.exchange_name e1.routing_key p1 "READY" none now1) := by
  set r1 : OutboxRow :=
    OutboxRow.mk e1.id e1.exchange_name e1.routing_key p1 "READY" none now1 with hr1
  set r2 : OutboxRow :=
    OutboxRow.mk e2.id e2.exchange_name e2.routing_key p2 "READY" none now2 with hr2
  have hc1 : commitTx store (PgTransaction.mk [r1]) = store ++ [r1] := by
    simp [commitTx, insertIfAbsent, hstore]
  have hmem : hasId (store ++ [r1]) r2.id = true := by
    rw [hasId_append]
    have : hasId [r1] r2.id = true := by simp [hasId, hr1, hr2, hid]
    simp [this]
  have hc2 : commitTx (store ++ [r1]) (PgTransaction.mk [r2]) = store ++ [r1] := by
    simp [commitTx, insertIfAbsent, hmem]
  refine ⟨PgTransaction.mk [r1], PgTransaction.mk [r2], ?_, ?_, ?_, ?_, ?_⟩
  · simp [write_outbox_event, h1, hr1]
  · simp [write_outbox_event, h2, hr2]
  · rw [hc1, hc2]
  · rw [hc1, hc2]
    have hone : countId [r1] e1.id = 1 := by simp [countId, hr1]
    have : countId (store ++ [r1]) e1.id = countId store e1.id + countId [r1] e1.id := by
      simp [countId, List.filter_append]
    rw [this, hone, countId_eq_zero_of_hasId_false store e1.id hstore]
  · rw [hc1, hc2]
    have : r1.id = e1.id := by rw [hr1]
    rw [← this, findRow_append_self store r1 (by rw [this]; exact hstore)]

/-- Concrete instance of C3. -/
theorem write_outbox_event_idempotent_witness :
    ∃ tx1 tx2 : PgTransaction,
      write_outbox_event (PgTransaction.mk [])
        (OutboxEventRecord.mk 9 "notifications" "message.created" (some "a")) 1 =
        Except.ok (9, tx1) ∧
      write_outbox_event (PgTransaction.mk [])
        (OutboxEventRecord.mk 9 "notifications" "message.updated" (some "b")) 2 =
        Except.ok (9, tx2) ∧
      commitTx (commitTx [] tx1) tx2 = commitTx [] tx1 ∧
      countId (commitTx (commitTx [] tx1) tx2) 9 = 1 ∧
      findRow (commitTx (commitTx [] tx1) tx2) 9 =
        some (OutboxRow.mk 9 "notifications" "message.created" "a" "READY" none 1) :=
  write_outbox_event_idempotent []
    (OutboxEventRecord.mk 9 "notifications" "message.created" (some "a"))
    (OutboxEventRecord.mk 9 "notifications" "message.updated" (some "b"))
    1 2 "a" "b" rfl rfl rfl rfl

/-- C6: publish returns ok exactly when a channel is established, the
channel accepts the basic publish, and the awaited broker confirmation
succeeds; in every other case (no channel, publish rejected, confirmation
failed) it returns an error. -/
theorem publish_requires_confirmation (p : RabbitMqPublisher)
    (exchange_name routing_key : String) (payload : List Nat) :
    publish p exchange_name routing_key payload = Except.ok () ↔
      ∃ ch : LapinChannel, p.channel = some ch ∧
        ch.acceptOk exchange_name routing_key payload = true ∧
        ch.confirmOk exchange_name routing_key payload = true := by
  match hch : p.channel with
  | none =>
      simp only [publish, hch]
      constructor
      · intro h; cases h
      · rintro ⟨ch, hc, _⟩; cases hc
  | some ch =>
      simp only [publish, hch]
      constructor
      · intro h
        by_cases ha : ch.acceptOk exchange_name routing_key payload
        · by_cases hc2 : ch.confirmOk exchange_name routing_key payload
          · exact ⟨ch, rfl, ha, hc2⟩
          · rw [if_pos ha, if_neg hc2] at h; cases h
        · rw [if_neg ha] at h; cases h
      · rintro ⟨ch2, hch2, ha, hc2⟩
        cases hch2
        rw [if_pos ha, if_pos hc2]

/-! Helper lemmas about documents, updates and the relay loop. -/

theorem docGet_docSet_self (d : MongoDoc) (k : String) (v : Bson) :
    docGet (docSet d k v) k = some v := by
  induction d with
  | nil => simp [docSet, docGet, List.find?]
  | cons p rest ih =>
      by_cases hp : p.1 = k
      · simp [docSet, hp, docGet, List.find?]
      · simp only [docSet]
        rw [if_neg hp]
        simp only [docGet, List.find?_cons]
        rw [decide_eq_false hp]
        exact ih

theorem docGet_docSet_ne (d : MongoDoc) (k k2 : String) (v : Bson) (h : k2 ≠ k) :
    docGet (docSet d k v) k2 = docGet d k2 := by
  have hk : ¬ (k = k2) := fun he => h he.symm
  induction d with
  | nil =>
      simp [docSet, docGet, List.find?, hk]
  | cons p rest ih =>
      by_cases hp : p.1 = k
      · have hp2 : ¬ (p.1 = k2) := fun he => h (hp ▸ he).symm
        simp [docSet, hp, docGet, List.find?_cons, hk, hp2]
      · simp only [docSet, if_neg hp, docGet, List.find?_cons]
        by_cases hq : p.1 = k2
        · simp [hq]
        · simp only [decide_eq_false hq]
          exact ih

theorem markSent_id (d : MongoDoc) : docGet (markSent d) "_id" = docGet d "_id" := by
  unfold markSent
  exact docGet_docSet_ne d "status" "_id" (Bson.string "SENT") (by decide)

theorem markSent_status (d : MongoDoc) :
    docGet (markSent d) "status" = some (Bson.string "SENT") :=
  docGet_docSet_self d "status" (Bson.string "SENT")

theorem markFailed_id (now : Nat) (d : MongoDoc) :
    docGet (markFailed now d) "_id" = docGet d "_id" := by
  unfold markFailed
  rw [docGet_docSet_ne _ "failed_at" "_id" _ (by decide)]
  exact docGet_docSet_ne d "status" "_id" _ (by decide)

theorem markFailed_status (now : Nat) (d : MongoDoc) :
    docGet (markFailed now d) "status" = some (Bson.string "FAILED") := by
  unfold markFailed
  rw [docGet_docSet_ne _ "failed_at" "status" _ (by decide)]
  exact docGet_docSet_self _ "status" _

theorem markFailed_failed_at (now : Nat) (d : MongoDoc) :
    docGet (markFailed now d) "failed_at" = some (Bson.dateTime now) :=
  docGet_docSet_self _ "failed_at" _

theorem extractParts_ok (d : MongoDoc) (idB : Bson) (ex rk : String) (p : Bson)
    (h : extractParts d = Except.ok (idB, ex, rk, p)) :
    docGet d "_id" = some idB ∧
    (docGet d "exchange_name").bind Bson.asStr = some ex ∧
    (docGet d "routing_key").bind Bson.asStr = some rk ∧
    docGet d "payload" = some p := by
  unfold extractParts at h
  split at h
  · cases h
  next idB2 hid =>
    split at h
    · cases h
    next hu =>
      split at h
      · cases h
      next ex2 hex =>
        split at h
        · cases h
        next rk2 hrk =>
          split at h
          · cases h
          next p2 hp =>
            injection h with h2
            injection h2 with ha hb
            injection hb with hc hd
            injection hd with he hf
            subst ha
            subst hc
            subst he
            subst hf
            exact ⟨hid, hex, hrk, hp⟩

theorem IdNe.symm2 {a b : MongoDoc} (h : IdNe a b) : IdNe b a :=
  fun he => h he.symm

theorem findById_updateFirst_self (docs : List MongoDoc) (idB : Bson)
    (f : MongoDoc → MongoDoc) (hf : ∀ d, docGet (f d) "_id" = docGet d "_id") :
    findById (updateFirst docs idB f) idB = (findById docs idB).map f := by
  induction docs with
  | nil => rfl
  | cons d rest ih =>
      by_cases hd : docGet d "_id" = some idB
      · have hfd : docGet (f d) "_id" = some idB := by rw [hf d]; exact hd
        simp only [updateFirst, if_pos hd, findById]
        rw [@List.find?_cons_of_pos MongoDoc (fun x => decide (docGet x "_id" = some idB))
          (f d) rest (decide_eq_true hfd)]
        rw [@List.find?_cons_of_pos MongoDoc (fun x => decide (docGet x "_id" = some idB))
          d rest (decide_eq_true hd)]
        rfl
      · simp only [updateFirst, if_neg hd, findById]
        rw [@List.find?_cons_of_neg MongoDoc (fun x => decide (docGet x "_id" = some idB))
          d (updateFirst rest idB f) (by simpa using hd)]
        rw [@List.find?_cons_of_neg MongoDoc (fun x => decide (docGet x "_id" = some idB))
          d rest (by simpa using hd)]
        exact ih

theorem findById_updateFirst_ne (docs : List MongoDoc) (idB idB2 : Bson)
    (f : MongoDoc → MongoDoc) (hf : ∀ d, docGet (f d) "_id" = docGet d "_id")
    (hne : idB2 ≠ idB) :
    findById (updateFirst docs idB f) idB2 = findById docs idB2 := by
  induction docs with
  | nil => rfl
  | cons d rest ih =>
      by_cases hd : docGet d "_id" = some idB
      · have hd2 : ¬ (docGet d "_id" = some idB2) := by
          rw [hd]
          intro he
          exact hne (Option.some_injective Bson he).symm
        have hd3 : ¬ (docGet (f d) "_id" = some idB2) := by
          rw [hf d]
          exact hd2
        simp only [updateFirst, if_pos hd, findById]
        rw [@List.find?_cons_of_neg MongoDoc (fun x => decide (docGet x "_id" = some idB2))
          (f d) rest (by simpa using hd3)]
        rw [@List.find?_cons_of_neg MongoDoc (fun x => decide (docGet x "_id" = some idB2))
          d rest (by simpa using hd2)]
      · simp only [updateFirst, if_neg hd, findById]
        by_cases hq : docGet d "_id" = some idB2
        · rw [@List.find?_cons_of_pos MongoDoc (fun x => decide (docGet x "_id" = some idB2))
            d (updateFirst rest idB f) (decide_eq_true hq)]
          rw [@List.find?_cons_of_pos MongoDoc (fun x => decide (docGet x "_id" = some idB2))
            d rest (decide_eq_true hq)]
        · rw [@List.find?_cons_of_neg MongoDoc (fun x => decide (docGet x "_id" = some idB2))
            d (updateFirst rest idB f) (by simpa using hq)]
          rw [@List.find?_cons_of_neg MongoDoc (fun x => decide (docGet x "_id" = some idB2))
            d rest (by simpa using hq)]
          exact ih

theorem mem_updateFirst_of_ne (docs : List MongoDoc) (idB : Bson)
    (f : MongoDoc → MongoDoc) (d : MongoDoc)
    (hd : docGet d "_id" ≠ some idB) (hmem : d ∈ docs) :
    d ∈ updateFirst docs idB f := by
  induction docs with
  | nil => cases hmem
  | cons x rest ih =>
      by_cases hx : docGet x "_id" = some idB
      · simp only [updateFirst, if_pos hx]
        rcases List.mem_cons.mp hmem with he | hr
        · exact absurd (he ▸ hx) hd
        · exact List.mem_cons_of_mem _ hr
      · simp only [updateFirst, if_neg hx]
        rcases List.mem_cons.mp hmem with he | hr
        · exact he ▸ List.mem_cons_self _ _
        · exact List.mem_cons_of_mem _ (ih hr)

/-- Equation: when field extraction fails, the step returns the error and
changes nothing. -/
theorem psm_of_extract_error (broker : BrokerModel) (now : Nat)
    (docs : List MongoDoc) (d : MongoDoc) (e : CoreError)
    (hE : extractParts d = Except.error e) :
    process_single_message broker now docs d =
      StepOut.mk (Except.error e) docs [] [] := by
  unfold process_single_message
  rw [hE]

/-- Equation: Binary payload and successful publish mark the document SENT. -/
theorem psm_of_publish_ok (broker : BrokerModel) (now : Nat)
    (docs : List MongoDoc) (d : MongoDoc) (idB : Bson) (ex rk : String)
    (bytes : List Nat)
    (hE : extractParts d = Except.ok (idB, ex, rk, Bson.binary bytes))
    (hb : broker.publishOk ex rk bytes = true) :
    process_single_message broker now docs d =
      StepOut.mk (Except.ok ()) (updateFirst docs idB markSent) [ex] [(ex, rk, bytes)] := by
  unfold process_single_message
  rw [hE]
  show (if broker.publishOk ex rk bytes = true then
      StepOut.mk (Except.ok ()) (updateFirst docs idB markSent) [ex] [(ex, rk, bytes)]
    else
      StepOut.mk (Except.ok ()) (updateFirst docs idB (markFailed now)) [ex]
        [(ex, rk, bytes)]) = _
  rw [if_pos hb]

/-- Equation: Binary payload and failed publish mark the document FAILED
with failed_at, and still return ok. -/
theorem psm_of_publish_fail (broker : BrokerModel) (now : Nat)
    (docs : List MongoDoc) (d : MongoDoc) (idB : Bson) (ex rk : String)
    (bytes : List Nat)
    (hE : extractParts d = Except.ok (idB, ex, rk, Bson.binary bytes))
    (hb : broker.publishOk ex rk bytes = false) :
    process_single_message broker now docs d =
      StepOut.mk (Except.ok ()) (updateFirst docs idB (markFailed now)) [ex]
        [(ex, rk, bytes)] := by
  unfold process_single_message
  rw [hE]
  show (if broker.publishOk ex rk bytes = true then
      StepOut.mk (Except.ok ()) (updateFirst docs idB markSent) [ex] [(ex, rk, bytes)]
    else
      StepOut.mk (Except.ok ()) (updateFirst docs idB (markFailed now)) [ex]
        [(ex, rk, bytes)]) = _
  rw [if_neg (by rw [hb]; exact Bool.false_ne_true)]

/-- Equation: a present but non-Binary payload is marked FAILED before any
broker interaction and reported as a serialization error. -/
theorem psm_of_nonbinary (broker : BrokerModel) (now : Nat)
    (docs : List MongoDoc) (d : MongoDoc) (idB : Bson) (ex rk : String) (p : Bson)
    (hE : extractParts d = Except.ok (idB, ex, rk, p))
    (hnb : ∀ bytes, p ≠ Bson.binary bytes) :
    process_single_message broker now docs d =
      StepOut.mk
        (Except.error (CoreError.SerializationError
          "Expected binary payload in outbox document"))
        (updateFirst docs idB (markFailed now)) [] [] := by
  unfold process_single_message
  rw [hE]
  match p, hnb with
  | Bson.string s, _ => rfl
  | Bson.dateTime t, _ => rfl
  | Bson.int32 n, _ => rfl
  | Bson.null, _ => rfl
  | Bson.binary bytes, hnb => exact absurd rfl (hnb bytes)

/-- Characterization of the publishes of one processing step: a publish
happens exactly on the Binary-payload path, with the extracted exchange,
routing key and payload bytes. -/
theorem psm_publishes_sub (broker : BrokerModel) (now : Nat)
    (docs : List MongoDoc) (d : MongoDoc)
    (p : String × String × List Nat)
    (hp : p ∈ (process_single_message broker now docs d).publishes) :
    ∃ idB ex rk bytes,
      extractParts d = Except.ok (idB, ex, rk, Bson.binary bytes) ∧
      p = (ex, rk, bytes) := by
  match hE : extractParts d with
  | Except.error e =>
      rw [psm_of_extract_error broker now docs d e hE] at hp
      cases hp
  | Except.ok (idB, ex, rk, Bson.binary bytes) =>
      refine ⟨idB, ex, rk, bytes, rfl, ?_⟩
      by_cases hb : broker.publishOk ex rk bytes
      · rw [psm_of_publish_ok broker now docs d idB ex rk bytes hE hb] at hp
        exact List.mem_singleton.mp hp
      · rw [psm_of_publish_fail broker now docs d idB ex rk bytes hE
          (Bool.not_eq_true _ ▸ hb)] at hp
        exact List.mem_singleton.mp hp
  | Except.ok (idB, ex, rk, Bson.string s) =>
      rw [psm_of_nonbinary broker now docs d idB ex rk _ hE (fun _ h => Bson.noConfusion h)] at hp
      cases hp
  | Except.ok (idB, ex, rk, Bson.dateTime t) =>
      rw [psm_of_nonbinary broker now docs d idB ex rk _ hE (fun _ h => Bson.noConfusion h)] at hp
      cases hp
  | Except.ok (idB, ex, rk, Bson.int32 n) =>
      rw [psm_of_nonbinary broker now docs d idB ex rk _ hE (fun _ h => Bson.noConfusion h)] at hp
      cases hp
  | Except.ok (idB, ex, rk, Bson.null) =>
      rw [psm_of_nonbinary broker now docs d idB ex rk _ hE (fun _ h => Bson.noConfusion h)] at hp
      cases hp

/-- The docs component after one step is either the unchanged collection or
an updateFirst keyed by the _id of the processed document. -/
theorem psm_docs_shape (broker : BrokerModel) (now : Nat)
    (docs : List MongoDoc) (b : MongoDoc) :
    (process_single_message broker now docs b).docs = docs ∨
    ∃ idB f, docGet b "_id" = some idB ∧
      (∀ d, docGet (f d) "_id" = docGet d "_id") ∧
      (process_single_message broker now docs b).docs = updateFirst docs idB f := by
  match hE : extractParts b with
  | Except.error e =>
      left
      rw [psm_of_extract_error broker now docs b e hE]
  | Except.ok (idB, ex, rk, Bson.binary bytes) =>
      right
      have hid : docGet b "_id" = some idB :=
        (extractParts_ok b idB ex rk (Bson.binary bytes) hE).1
      by_cases hb : broker.publishOk ex rk bytes
      · exact ⟨idB, markSent, hid, markSent_id,
          by rw [psm_of_publish_ok broker now docs b idB ex rk bytes hE hb]⟩
      · exact ⟨idB, markFailed now, hid, markFailed_id now,
          by rw [psm_of_publish_fail broker now docs b idB ex rk bytes hE
            (Bool.not_eq_true _ ▸ hb)]⟩
  | Except.ok (idB, ex, rk, Bson.string s) =>
      right
      exact ⟨idB, markFailed now, (extractParts_ok b idB ex rk _ hE).1, markFailed_id now,
        by rw [psm_of_nonbinary broker now docs b idB ex rk _ hE (fun _ h => Bson.noConfusion h)]⟩
  | Except.ok (idB, ex, rk, Bson.dateTime t) =>
      right
      exact ⟨idB, markFailed now, (extractParts_ok b idB ex rk _ hE).1, markFailed_id now,
        by rw [psm_of_nonbinary broker now docs b idB ex rk _ hE (fun _ h => Bson.noConfusion h)]⟩
  | Except.ok (idB, ex, rk, Bson.int32 n) =>
      right
      exact ⟨idB, markFailed now, (extractParts_ok b idB ex rk _ hE).1, markFailed_id now,
        by rw [psm_of_nonbinary broker now docs b idB ex rk _ hE (fun _ h => Bson.noConfusion h)]⟩
  | Except.ok (idB, ex, rk, Bson.null) =>
      right
      exact ⟨idB, markFailed now, (extractParts_ok b idB ex rk _ hE).1, markFailed_id now,
        by rw [psm_of_nonbinary broker now docs b idB ex rk _ hE (fun _ h => Bson.noConfusion h)]⟩

/-- A processing step leaves any document with a different _id in place. -/
theorem psm_mem_preserve (broker : BrokerModel) (now : Nat)
    (docs : List MongoDoc) (b d : MongoDoc)
    (hne : docGet b "_id" ≠ docGet d "_id") (hmem : d ∈ docs) :
    d ∈ (process_single_message broker now docs b).docs := by
  rcases psm_docs_shape broker now docs b with h | ⟨idB, f, hid, _, h⟩
  · rw [h]
    exact hmem
  · rw [h]
    refine mem_updateFirst_of_ne docs idB f d ?_ hmem
    intro he
    exact hne (hid.trans (he.symm ▸ rfl))

/-- A processing step for a document with a different _id does not change
what findById returns for this _id. -/
theorem psm_findById_other (broker : BrokerModel) (now : Nat)
    (docs : List MongoDoc) (b : MongoDoc) (idB2 : Bson)
    (hne : docGet b "_id" ≠ some idB2) :
    findById (process_single_message broker now docs b).docs idB2 =
      findById docs idB2 := by
  rcases psm_docs_shape broker now docs b with h | ⟨idB, f, hid, hf, h⟩
  · rw [h]
  · rw [h]
    refine findById_updateFirst_ne docs idB idB2 f hf ?_
    intro he
    exact hne (by rw [hid, he])

/-- The loop attempts every document of the batch: one result per
document, independently of errors along the way. -/
theorem relayBatch_results_length (broker : BrokerModel) (now : Nat)
    (batch : List MongoDoc) : ∀ docs : List MongoDoc,
    (relayBatch broker now docs batch).results.length = batch.length := by
  induction batch with
  | nil => intro docs; rfl
  | cons d rest ih =>
      intro docs
      simp only [relayBatch, List.length_cons]
      rw [ih]

/-- Every publish of a batch originates in one of the batch documents, on
its Binary-payload path. -/
theorem relayBatch_publishes_sub (broker : BrokerModel) (now : Nat)
    (batch : List MongoDoc) : ∀ (docs : List MongoDoc) (p : String × String × List Nat),
    p ∈ (relayBatch broker now docs batch).publishes →
    ∃ b ∈ batch, ∃ idB ex rk bytes,
      extractParts b = Except.ok (idB, ex, rk, Bson.binary bytes) ∧
      p = (ex, rk, bytes) := by
  induction batch with
  | nil => intro docs p hp; cases hp
  | cons d rest ih =>
      intro docs p hp
      simp only [relayBatch] at hp
      rw [List.mem_append] at hp
      rcases hp with h1 | h2
      · obtain ⟨idB, ex, rk, bytes, hE, hpe⟩ := psm_publishes_sub broker now docs d p h1
        exact ⟨d, List.mem_cons_self _ _, idB, ex, rk, bytes, hE, hpe⟩
      · obtain ⟨b, hbm, rest2⟩ := ih _ p h2
        exact ⟨b, List.mem_cons_of_mem _ hbm, rest2⟩

/-- A document whose _id differs from every batch document's _id survives
the whole batch untouched. -/
theorem relayBatch_mem_preserve (broker : BrokerModel) (now : Nat)
    (batch : List MongoDoc) : ∀ (docs : List MongoDoc) (d : MongoDoc),
    d ∈ docs →
    (∀ b ∈ batch, docGet b "_id" ≠ docGet d "_id") →
    d ∈ (relayBatch broker now docs batch).docs := by
  induction batch with
  | nil => intro docs d hd _; exact hd
  | cons b rest ih =>
      intro docs d hd hids
      simp only [relayBatch]
      exact ih _ d
        (psm_mem_preserve broker now docs b d (hids b (List.mem_cons_self _ _)) hd)
        (fun c hc => hids c (List.mem_cons_of_mem _ hc))

/-- findById for an _id outside the batch is unchanged by the batch. -/
theorem relayBatch_findById_other (broker : BrokerModel) (now : Nat)
    (batch : List MongoDoc) : ∀ (docs : List MongoDoc) (idB2 : Bson),
    (∀ b ∈ batch, docGet b "_id" ≠ some idB2) →
    findById (relayBatch broker now docs batch).docs idB2 = findById docs idB2 := by
  induction batch with
  | nil => intro docs idB2 _; rfl
  | cons b rest ih =>
      intro docs idB2 h
      simp only [relayBatch]
      rw [ih _ idB2 (fun c hc => h c (List.mem_cons_of_mem _ hc))]
      exact psm_findById_other broker now docs b idB2 (h b (List.mem_cons_self _ _))

/-- With unique ids, findById finds exactly the member document carrying
the id. -/
theorem findById_of_mem_pairwise (docs : List MongoDoc) (b : MongoDoc) (idB : Bson)
    (hpair : List.Pairwise IdNe docs) (hmem : b ∈ docs)
    (hid : docGet b "_id" = some idB) :
    findById docs idB = some b := by
  induction docs with
  | nil => cases hmem
  | cons x rest ih =>
      rcases List.mem_cons.mp hmem with he | hr
      · subst he
        unfold findById
        rw [@List.find?_cons_of_pos MongoDoc (fun y => decide (docGet y "_id" = some idB))
          b rest (decide_eq_true hid)]
      · have hxne : docGet x "_id" ≠ some idB := by
          have hne := (List.pairwise_cons.mp hpair).1 b hr
          intro hxe
          exact hne (hxe.trans hid.symm)
        unfold findById
        rw [@List.find?_cons_of_neg MongoDoc (fun y => decide (docGet y "_id" = some idB))
          x rest (by simpa using hxne)]
        exact ih (List.pairwise_cons.mp hpair).2 hr

/-- Membership in the relay batch implies membership in the collection and
READY status. -/
theorem mem_scanReady (docs : List MongoDoc) (b : MongoDoc) (hb : b ∈ scanReady docs) :
    b ∈ docs ∧ isReady b = true := by
  unfold scanReady at hb
  have h1 := List.mem_of_mem_take hb
  have h2 := (List.perm_insertionSort createdLe _).mem_iff.mp h1
  exact List.mem_filter.mp h2

/-- Unique ids carry over from the collection to the relay batch. -/
theorem pairwise_scanReady (docs : List MongoDoc) (hpair : List.Pairwise IdNe docs) :
    List.Pairwise IdNe (scanReady docs) := by
  unfold scanReady
  refine List.Pairwise.sublist (List.take_sublist _ _) ?_
  refine (List.Perm.pairwise_iff (fun h => h.symm2)
    (List.perm_insertionSort createdLe _)).mpr ?_
  exact List.Pairwise.sublist (List.filter_sublist _) hpair

/-- Core drain argument: a well-formed document of the batch, uniquely
identified by its _id in the collection, ends the batch with status SENT or
FAILED. -/
theorem relayBatch_drains_aux (broker : BrokerModel) (now : Nat)
    (batch : List MongoDoc) :
    ∀ (docs : List MongoDoc) (b : MongoDoc) (idB : Bson) (ex rk : String)
      (bytes : List Nat),
    b ∈ batch →
    List.Pairwise IdNe batch →
    extractParts b = Except.ok (idB, ex, rk, Bson.binary bytes) →
    findById docs idB = some b →
    ∃ d2, findById (relayBatch broker now docs batch).docs idB = some d2 ∧
      (docGet d2 "status" = some (Bson.string "SENT") ∨
       docGet d2 "status" = some (Bson.string "FAILED")) := by
  induction batch with
  | nil => intro docs b idB ex rk bytes hb; cases hb
  | cons a rest ih =>
      intro docs b idB ex rk bytes hb hpair hE hfind
      have hbid : docGet b "_id" = some idB :=
        (extractParts_ok b idB ex rk (Bson.binary bytes) hE).1
      simp only [relayBatch]
      rcases List.mem_cons.mp hb with he | hr
      · subst he
        have hrest : ∀ c ∈ rest, docGet c "_id" ≠ some idB := by
          intro c hc hce
          exact ((List.pairwise_cons.mp hpair).1 c hc) (hbid.trans hce.symm)
        by_cases hpub : broker.publishOk ex rk bytes
        · rw [psm_of_publish_ok broker now docs b idB ex rk bytes hE hpub]
          rw [relayBatch_findById_other broker now rest _ idB hrest]
          rw [findById_updateFirst_self docs idB markSent markSent_id, hfind]
          exact ⟨markSent b, rfl, Or.inl (markSent_status b)⟩
        · rw [psm_of_publish_fail broker now docs b idB ex rk bytes hE
            (Bool.not_eq_true _ ▸ hpub)]
          rw [relayBatch_findById_other broker now rest _ idB hrest]
          rw [findById_updateFirst_self docs idB (markFailed now) (markFailed_id now), hfind]
          exact ⟨markFailed now b, rfl, Or.inr (markFailed_status now b)⟩
      · have hane : docGet a "_id" ≠ some idB := by
          intro hae
          exact ((List.pairwise_cons.mp hpair).1 b hr) (hae.trans hbid.symm)
        have hfind2 : findById (process_single_message broker now docs a).docs idB = some b := by
          rw [psm_findById_other broker now docs a idB hane]
          exact hfind
        exact ih _ b idB ex rk bytes hr (List.pairwise_cons.mp hpair).2 hE hfind2

/-- C2: a record observed with status SENT is never published again by a
poll. The relay batch contains only READY documents, so the SENT document
is not in it; every publish of the poll originates from a batch (hence
READY) document; and the SENT document survives the poll untouched, since
the relay defines no transition out of SENT (unique _id assumed, as MongoDB
enforces on _id). -/
theorem relay_no_double_send (broker : BrokerModel) (now : Nat)
    (docs : List MongoDoc) (d : MongoDoc)
    (hmem : d ∈ docs)
    (hsent : docGet d "status" = some (Bson.string "SENT"))
    (huniq : ∀ b ∈ docs, isReady b = true → docGet b "_id" ≠ docGet d "_id") :
    (∀ b ∈ scanReady docs, isReady b = true) ∧
    d ∉ scanReady docs ∧
    (∀ p ∈ (process_pending_messages broker now docs).publishes,
      ∃ b ∈ scanReady docs, ∃ idB ex rk bytes,
        extractParts b = Except.ok (idB, ex, rk, Bson.binary bytes) ∧
        p = (ex, rk, bytes)) ∧
    d ∈ (process_pending_messages broker now docs).docs := by
  have hready : ∀ b ∈ scanReady docs, isReady b = true :=
    fun b hb => (mem_scanReady docs b hb).2
  refine ⟨hready, ?_, ?_, ?_⟩
  · intro hd
    have h2 := hready d hd
    simp [isReady, hsent] at h2
  · intro p hp
    exact relayBatch_publishes_sub broker now (scanReady docs) docs p hp
  · refine relayBatch_mem_preserve broker now (scanReady docs) docs d hmem ?_
    intro b hb
    exact huniq b (mem_scanReady docs b hb).1 (hready b hb)

/-- Concrete instance of C2: a SENT document next to a READY one. -/
theorem relay_no_double_send_witness :
    (∀ b ∈ scanReady [sampleDoc 0, sentDoc], isReady b = true) ∧
    sentDoc ∉ scanReady [sampleDoc 0, sentDoc] ∧
    (∀ p ∈ (process_pending_messages alwaysOk 3 [sampleDoc 0, sentDoc]).publishes,
      ∃ b ∈ scanReady [sampleDoc 0, sentDoc], ∃ idB ex rk bytes,
        extractParts b = Except.ok (idB, ex, rk, Bson.binary bytes) ∧
        p = (ex, rk, bytes)) ∧
    sentDoc ∈ (process_pending_messages alwaysOk 3 [sampleDoc 0, sentDoc]).docs :=
  relay_no_double_send alwaysOk 3 [sampleDoc 0, sentDoc] sentDoc
    (by decide) rfl (by decide)

set_option maxRecDepth 20000 in
/-- C4 as stated is refuted by the batch limit: with 101 well-formed READY
documents present at the poll and a healthy broker (and storage that never
fails in this embedding), the poll processes only the 100 oldest, and the
newest document is still READY, unchanged, after the poll. -/
theorem relay_ready_backlog_counterexample :
    ((manyDocs 101).filter isReady).length = 101 ∧
    (process_pending_messages alwaysOk 200 (manyDocs 101)).docs.filter isReady =
      [sampleDoc 100] :=
  ⟨rfl, rfl⟩

/-- C4 (amended): every READY record of the poll's batch (the at most 100
oldest READY records) whose fields are well formed transitions to SENT or
FAILED within that poll; READY records beyond the batch limit, or with
malformed fields, remain READY. Unique _id values are assumed, as MongoDB
enforces on _id. -/
theorem relay_poll_drains_batch (broker : BrokerModel) (now : Nat)
    (docs : List MongoDoc)
    (hpair : List.Pairwise IdNe docs)
    (b : MongoDoc) (idB : Bson) (ex rk : String) (bytes : List Nat)
    (hb : b ∈ scanReady docs)
    (hE : extractParts b = Except.ok (idB, ex, rk, Bson.binary bytes)) :
    ∃ d2, findById (process_pending_messages broker now docs).docs idB = some d2 ∧
      (docGet d2 "status" = some (Bson.string "SENT") ∨
       docGet d2 "status" = some (Bson.string "FAILED")) := by
  have hmem := (mem_scanReady docs b hb).1
  have hbid : docGet b "_id" = some idB :=
    (extractParts_ok b idB ex rk (Bson.binary bytes) hE).1
  exact relayBatch_drains_aux broker now (scanReady docs) docs b idB ex rk bytes hb
    (pairwise_scanReady docs hpair) hE
    (findById_of_mem_pairwise docs b idB hpair hmem hbid)

/-- Concrete instance of the amended C4. -/
theorem relay_poll_drains_batch_witness :
    ∃ d2, findById
        (process_pending_messages alwaysOk 5 [sampleDoc 0]).docs
        (Bson.binary (0 :: List.replicate 15 0)) = some d2 ∧
      (docGet d2 "status" = some (Bson.string "SENT") ∨
       docGet d2 "status" = some (Bson.string "FAILED")) :=
  relay_poll_drains_batch alwaysOk 5 [sampleDoc 0] (by simp) (sampleDoc 0)
    (Bson.binary (0 :: List.replicate 15 0)) "notifications" "message.created" [0]
    (by decide) rfl

/-- C5 as stated is refuted on the declaration clause: when the exchange
declaration fails but the publish succeeds, the record is marked SENT, not
FAILED, and failed_at stays unset — declaration failure alone never marks a
record FAILED (relay.rs lines 144-146 only log it). -/
theorem relay_declare_failure_counterexample :
    declineDeclare.declareOk "notifications" = false ∧
    (process_single_message declineDeclare 7 [sampleDoc 0] (sampleDoc 0)).declares =
      ["notifications"] ∧
    (process_single_message declineDeclare 7 [sampleDoc 0] (sampleDoc 0)).docs.map
      (fun d => docGet d "status") = [some (Bson.string "SENT")] ∧
    (process_single_message declineDeclare 7 [sampleDoc 0] (sampleDoc 0)).docs.map
      (fun d => docGet d "failed_at") = [some Bson.null] :=
  ⟨rfl, rfl, rfl, rfl⟩

/-- C5 (amended): when the publish-with-confirmation attempt fails — the
broker outcome function covers connection not established, publish
rejection and confirmation failure — the relay marks the record FAILED and
sets failed_at to the current time (and the per-record processing still
returns ok); exchange-declaration failure alone does not mark the record
FAILED. -/
theorem relay_publish_failure_marks_failed (broker : BrokerModel) (now : Nat)
    (docs : List MongoDoc) (d : MongoDoc) (idB : Bson) (ex rk : String)
    (bytes : List Nat)
    (hE : extractParts d = Except.ok (idB, ex, rk, Bson.binary bytes))
    (hfail : broker.publishOk ex rk bytes = false)
    (hfind : findById docs idB = some d) :
    (process_single_message broker now docs d).result = Except.ok () ∧
    ∃ d2, findById (process_single_message broker now docs d).docs idB = some d2 ∧
      docGet d2 "status" = some (Bson.string "FAILED") ∧
      docGet d2 "failed_at" = some (Bson.dateTime now) := by
  rw [psm_of_publish_fail broker now docs d idB ex rk bytes hE hfail]
  refine ⟨rfl, ?_⟩
  rw [findById_updateFirst_self docs idB (markFailed now) (markFailed_id now), hfind]
  exact ⟨markFailed now d, rfl, markFailed_status now d, markFailed_failed_at now d⟩

/-- Concrete instance of the amended C5. -/
theorem relay_publish_failure_marks_failed_witness :
    (process_single_message neverPublish 13 [sampleDoc 2] (sampleDoc 2)).result =
      Except.ok () ∧
    ∃ d2, findById (process_single_message neverPublish 13 [sampleDoc 2] (sampleDoc 2)).docs
        (Bson.binary (2 :: List.replicate 15 0)) = some d2 ∧
      docGet d2 "status" = some (Bson.string "FAILED") ∧
      docGet d2 "failed_at" = some (Bson.dateTime 13) :=
  relay_publish_failure_marks_failed neverPublish 13 [sampleDoc 2] (sampleDoc 2)
    (Bson.binary (2 :: List.replicate 15 0)) "notifications" "message.created" [2]
    rfl rfl rfl

set_option maxRecDepth 20000 in
/-- C7: a poll queries at most 100 READY documents of the collection,
ordered by created_at ascending; and in the 150-record scenario one poll
publishes exactly the 100 oldest, oldest first, leaving the 50 newest
READY and untouched for the next poll. -/
theorem relay_scan_limit_and_order (docs : List MongoDoc) :
    (scanReady docs).length ≤ 100 ∧
    (∀ b ∈ scanReady docs, isReady b = true ∧ b ∈ docs) ∧
    List.Pairwise createdLe (scanReady docs) ∧
    (process_pending_messages alwaysOk 500 (manyDocs 150)).docs.filter isReady =
      ((List.range 150).drop 100).map sampleDoc ∧
    (process_pending_messages alwaysOk 500 (manyDocs 150)).publishes =
      (List.range 100).map (fun i => ("notifications", "message.created", [i])) := by
  refine ⟨?_, ?_, ?_, rfl, rfl⟩
  · unfold scanReady
    rw [List.length_take]
    exact min_le_left _ _
  · intro b hb
    exact ⟨(mem_scanReady docs b hb).2, (mem_scanReady docs b hb).1⟩
  · unfold scanReady
    exact List.Pairwise.sublist (List.take_sublist _ _)
      (List.sorted_insertionSort createdLe _)

/-- Concrete instance of C7. -/
theorem relay_scan_limit_and_order_witness :
    (scanReady [sampleDoc 1, sampleDoc 0]).length ≤ 100 ∧
    (∀ b ∈ scanReady [sampleDoc 1, sampleDoc 0],
      isReady b = true ∧ b ∈ [sampleDoc 1, sampleDoc 0]) ∧
    List.Pairwise createdLe (scanReady [sampleDoc 1, sampleDoc 0]) ∧
    (process_pending_messages alwaysOk 500 (manyDocs 150)).docs.filter isReady =
      ((List.range 150).drop 100).map sampleDoc ∧
    (process_pending_messages alwaysOk 500 (manyDocs 150)).publishes =
      (List.range 100).map (fun i => ("notifications", "message.created", [i])) :=
  relay_scan_limit_and_order [sampleDoc 1, sampleDoc 0]

/-- C8: one record's failure does not stop the batch. The loop yields one
result per batch document regardless of errors; concretely, a batch whose
first document fails extraction still publishes and marks SENT the second
document in the same poll. -/
theorem relay_failure_isolation (broker : BrokerModel) (now : Nat)
    (docs batch : List MongoDoc) :
    (relayBatch broker now docs batch).results.length = batch.length ∧
    (relayBatch alwaysOk 9 [noExchangeDoc, sampleDoc 1]
      [noExchangeDoc, sampleDoc 1]).results =
      [Except.error (CoreError.DatabaseError "Missing exchange_name in outbox document"),
       Except.ok ()] ∧
    (relayBatch alwaysOk 9 [noExchangeDoc, sampleDoc 1]
      [noExchangeDoc, sampleDoc 1]).publishes =
      [("notifications", "message.created", [1])] ∧
    (relayBatch alwaysOk 9 [noExchangeDoc, sampleDoc 1]
      [noExchangeDoc, sampleDoc 1]).docs.map (fun d => docGet d "status") =
      [some (Bson.string "READY"), some (Bson.string "SENT")] :=
  ⟨relayBatch_results_length broker now batch docs, rfl, rfl, rfl⟩

/-- C9: a READY document whose payload field is present but not BSON Binary
is marked FAILED with failed_at set, the step reports a serialization
error, and no exchange declaration and no publish is attempted for it. -/
theorem relay_nonbinary_payload (broker : BrokerModel) (now : Nat)
    (docs : List MongoDoc) (d : MongoDoc) (idB : Bson) (ex rk : String) (p : Bson)
    (hE : extractParts d = Except.ok (idB, ex, rk, p))
    (hnb : ∀ bytes, p ≠ Bson.binary bytes)
    (hfind : findById docs idB = some d) :
    (process_single_message broker now docs d).result =
      Except.error (CoreError.SerializationError
        "Expected binary payload in outbox document") ∧
    (process_single_message broker now docs d).declares = [] ∧
    (process_single_message broker now docs d).publishes = [] ∧
    ∃ d2, findById (process_single_message broker now docs d).docs idB = some d2 ∧
      docGet d2 "status" = some (Bson.string "FAILED") ∧
      docGet d2 "failed_at" = some (Bson.dateTime now) := by
  rw [psm_of_nonbinary broker now docs d idB ex rk p hE hnb]
  refine ⟨rfl, rfl, rfl, ?_⟩
  rw [findById_updateFirst_self docs idB (markFailed now) (markFailed_id now), hfind]
  exact ⟨markFailed now d, rfl, markFailed_status now d, markFailed_failed_at now d⟩

/-- Concrete instance of C9, on a document with a string payload. -/
theorem relay_nonbinary_payload_witness :
    (process_single_message alwaysOk 21 [legacyPayloadDoc] legacyPayloadDoc).result =
      Except.error (CoreError.SerializationError
        "Expected binary payload in outbox document") ∧
    (process_single_message alwaysOk 21 [legacyPayloadDoc] legacyPayloadDoc).declares = [] ∧
    (process_single_message alwaysOk 21 [legacyPayloadDoc] legacyPayloadDoc).publishes = [] ∧
    ∃ d2, findById (process_single_message alwaysOk 21 [legacyPayloadDoc] legacyPayloadDoc).docs
        (Bson.binary (List.replicate 16 3)) = some d2 ∧
      docGet d2 "status" = some (Bson.string "FAILED") ∧
      docGet d2 "failed_at" = some (Bson.dateTime 21) :=
  relay_nonbinary_payload alwaysOk 21 [legacyPayloadDoc] legacyPayloadDoc
    (Bson.binary (List.replicate 16 3)) "notifications" "message.created"
    (Bson.string "legacy json") rfl (fun _ h => Bson.noConfusion h) rfl

/-- A document whose extraction fails survives a whole batch untouched,
assuming every other batch document carries a different _id. -/
theorem relayBatch_mem_preserve_of_error (broker : BrokerModel) (now : Nat)
    (batch : List MongoDoc) : ∀ (docs : List MongoDoc) (d : MongoDoc) (e : CoreError),
    extractParts d = Except.error e →
    d ∈ docs →
    (∀ b ∈ batch, b = d ∨ docGet b "_id" ≠ docGet d "_id") →
    d ∈ (relayBatch broker now docs batch).docs := by
  induction batch with
  | nil => intro docs d e _ hd _; exact hd
  | cons b rest ih =>
      intro docs d e herr hd hids
      simp only [relayBatch]
      rcases hids b (List.mem_cons_self _ _) with hbd | hbne
      · subst hbd
        rw [psm_of_extract_error broker now docs b e herr]
        exact ih docs b e herr hd (fun c hc => hids c (List.mem_cons_of_mem _ hc))
      · exact ih _ d e herr (psm_mem_preserve broker now docs b d hbne hd)
          (fun c hc => hids c (List.mem_cons_of_mem _ hc))

/-- C10: a READY document missing _id, exchange_name, routing_key or
payload (or with an invalid UUID _id) makes the step return an error with
no status update, no declaration and no publish; such a document survives
the poll unchanged and still matches the READY scan filter; concretely, a
collection holding only such a document yields the same singleton batch on
the next poll and on the one after it. -/
theorem relay_malformed_doc_skipped (broker : BrokerModel) (now : Nat)
    (docs : List MongoDoc) (d : MongoDoc) (e : CoreError)
    (herr : extractParts d = Except.error e)
    (hmem : d ∈ docs)
    (hready : isReady d = true)
    (huniq : ∀ b ∈ docs, b ≠ d → docGet b "_id" ≠ docGet d "_id") :
    process_single_message broker now docs d = StepOut.mk (Except.error e) docs [] [] ∧
    d ∈ (process_pending_messages broker now docs).docs ∧
    d ∈ (process_pending_messages broker now docs).docs.filter isReady ∧
    scanReady [noExchangeDoc] = [noExchangeDoc] ∧
    (process_pending_messages alwaysOk 11 [noExchangeDoc]).docs = [noExchangeDoc] ∧
    scanReady (process_pending_messages alwaysOk 11 [noExchangeDoc]).docs =
      [noExchangeDoc] := by
  have hdmem : d ∈ (process_pending_messages broker now docs).docs := by
    refine relayBatch_mem_preserve_of_error broker now (scanReady docs) docs d e herr hmem ?_
    intro b hb
    by_cases hbd : b = d
    · exact Or.inl hbd
    · exact Or.inr (huniq b (mem_scanReady docs b hb).1 hbd)
  refine ⟨psm_of_extract_error broker now docs d e herr, hdmem, ?_, rfl, rfl, rfl⟩
  exact List.mem_filter.mpr ⟨hdmem, hready⟩

/-- Concrete instance of C10, on a document missing exchange_name. -/
theorem relay_malformed_doc_skipped_witness :
    process_single_message alwaysOk 17 [noExchangeDoc] noExchangeDoc =
      StepOut.mk
        (Except.error (CoreError.DatabaseError "Missing exchange_name in outbox document"))
        [noExchangeDoc] [] [] ∧
    noExchangeDoc ∈ (process_pending_messages alwaysOk 17 [noExchangeDoc]).docs ∧
    noExchangeDoc ∈ (process_pending_messages alwaysOk 17 [noExchangeDoc]).docs.filter isReady ∧
    scanReady [noExchangeDoc] = [noExchangeDoc] ∧
    (process_pending_messages alwaysOk 11 [noExchangeDoc]).docs = [noExchangeDoc] ∧
    scanReady (process_pending_messages alwaysOk 11 [noExchangeDoc]).docs =
      [noExchangeDoc] :=
  relay_malformed_doc_skipped alwaysOk 17 [noExchangeDoc] noExchangeDoc
    (CoreError.DatabaseError "Missing exchange_name in outbox document")
    rfl (by decide) rfl (by decide)

end OutboxSpec
